import Mathlib

/-!
Verification development for the dev-events repository.

The repository's persistence core consists of three pieces:

* `src/lib/mongodb.ts` — a module-level cached MongoDB connection
  (`connectToDatabase` plus a top-level configuration guard);
* `src/database/event.model.ts` — the Event model with `generateSlug`,
  `normalizeDateToISO`, `normalizeTime` and a pre-save hook that derives a
  unique slug and normalizes date/time;
* the Booking model (`BookingSchema.pre('save')`) — an email-format check
  followed by a referenced-event existence check.

Each JavaScript function is embedded shallowly as an executable Lean
definition operating on `String` / `List Char` / `Nat` / `Int`.  Stateful
pieces (the connection cache, the save hooks) are embedded as explicit
state-passing functions; asynchronous storage round-trips (`Model.exists`)
become function parameters `String → Bool`; the engine's general date
parser (`new Date(string)` on non-ISO shapes) is an explicit oracle
parameter, since its grammar is host-defined.
-/

/-! ## Character and string primitives

`isJsSpace` models the ASCII portion of the JavaScript `\s` class (the
inputs in this development are ASCII).  `digitChar`/`digitVal` convert
between decimal digits and characters.  `jsToLower`/`jsToUpper` model
`String.prototype.toLowerCase`/`toUpperCase` on ASCII.  `jsTrim` models
`String.prototype.trim`.
-/

def isJsSpace (c : Char) : Bool :=
  c = ' ' || c = '\t' || c = '\n' || c = '\r' || c = '\x0b' || c = '\x0c'

def isDigitChar (c : Char) : Bool :=
  48 ≤ c.toNat && c.toNat ≤ 57

def digitVal (c : Char) : Nat := c.toNat - 48

/-- The decimal digit character for `n` (defined for `n ≤ 9`; larger inputs
clamp to `'9'`, which no reachable call exercises). -/
def digitChar : Nat → Char
  | 0 => '0' | 1 => '1' | 2 => '2' | 3 => '3' | 4 => '4'
  | 5 => '5' | 6 => '6' | 7 => '7' | 8 => '8' | _ => '9'

def jsToLower (c : Char) : Char :=
  if 65 ≤ c.toNat ∧ c.toNat ≤ 90 then Char.ofNat (c.toNat + 32) else c

def jsToUpper (c : Char) : Char :=
  if 97 ≤ c.toNat ∧ c.toNat ≤ 122 then Char.ofNat (c.toNat - 32) else c

def jsTrim (l : List Char) : List Char :=
  ((l.dropWhile isJsSpace).reverse.dropWhile isJsSpace).reverse

/-- Decimal digit list of `n` (most significant first); `fuel` bounds the
recursion and is always called with `fuel = n`, which suffices. -/
def natDigitsAux : Nat → Nat → List Char
  | 0, _ => []
  | _ + 1, 0 => []
  | fuel + 1, n => natDigitsAux fuel (n / 10) ++ [digitChar (n % 10)]

/-- Decimal rendering of a natural number, modelling JavaScript
`Number.prototype.toString` on non-negative integers. -/
def natToStr (n : Nat) : String :=
  if n = 0 then "0" else ⟨natDigitsAux n n⟩

/-- Models `n.toString().padStart(2, '0')` for a non-negative integer. -/
def jsPad2 (n : Nat) : String :=
  if n < 10 then "0" ++ natToStr n else natToStr n

/-- Exactly-two-digit rendering of `n < 100` (used where the source
guarantees a two-digit field, e.g. month/day in `toISOString`). -/
def twoDigits (n : Nat) : String := ⟨[digitChar (n / 10 % 10), digitChar (n % 10)]⟩

/-- Exactly-four-digit rendering of `n ≤ 9999` (the year field of
`toISOString`). -/
def fourDigits (n : Nat) : String :=
  ⟨[digitChar (n / 1000 % 10), digitChar (n / 100 % 10),
    digitChar (n / 10 % 10), digitChar (n % 10)]⟩

/-- Six-digit rendering, for the expanded-year `toISOString` form
(`±YYYYYY`, reachable only via extreme rollover inputs). -/
def sixDigits (n : Nat) : String :=
  ⟨[digitChar (n / 100000 % 10), digitChar (n / 10000 % 10),
    digitChar (n / 1000 % 10), digitChar (n / 100 % 10),
    digitChar (n / 10 % 10), digitChar (n % 10)]⟩

/-! ## The connection cache (`src/lib/mongodb.ts`)

The module keeps `cached : { conn, promise }`.  A settled promise is
modelled as `Except String Conn` (`.error` = rejected); `connectToDatabase`
takes the outcome `attempt` that a *fresh* `mongoose.connect` call would
produce on this invocation, and returns the call's own outcome together
with the updated cache.  `await` of a rejected promise re-throws and leaves
`cached.promise` set — exactly as in the source, which has no failure
handler around `cached.conn = await cached.promise`.
-/

abbrev Conn := Nat

deriving instance DecidableEq for Except

structure ConnCache where
  conn : Option Conn
  promise : Option (Except String Conn)
  deriving Repr, DecidableEq

/-- Embeds the top of `src/lib/mongodb.ts`: reading `process.env.MONGODB_URI`
(`undefined` when the variable is absent) and the module-level guard
`if (!MONGODB_URI) throw new Error(...)`.  Evaluating this function is
what "importing the module" does.  JavaScript `!s` is true for a string
exactly when it is empty, so the guard throws both when the variable is
absent and when it is present but empty. -/
def mongodbModuleInit (env : Option String) : Except String String :=
  match env with
  | none => .error "Please define the MONGODB_URI environment variable"
  | some uri =>
    if uri = "" then .error "Please define the MONGODB_URI environment variable"
    else .ok uri

/-- Embeds `connectToDatabase`.  Source, line by line:
`if (cached.conn) return cached.conn;`
`if (!cached.promise) cached.promise = mongoose.connect(...);`
`cached.conn = await cached.promise; return cached.conn;`. -/
def connectToDatabase (attempt : Except String Conn) (cached : ConnCache) :
    Except String Conn × ConnCache :=
  match cached.conn with
  | some conn => (.ok conn, cached)
  | none =>
    let p := match cached.promise with
      | some p => p
      | none => attempt
    match p with
    | .ok conn => (.ok conn, { conn := some conn, promise := some p })
    | .error e => (.error e, { conn := none, promise := some p })

/-! ## Slug generation (`generateSlug`, event.model.ts lines 108–115)

The source lowercases the title, trims it, strips every character outside
the class `[^\w\s-]`, replaces each whitespace run by a hyphen, and then
collapses each hyphen run to one hyphen.  `collapseRuns p r` replaces every maximal run of
characters satisfying `p` by the single character `r`, which is exactly
what `replace(/X+/g, r)` does for a character class `X`.
-/

def isWordChar (c : Char) : Bool :=
  (65 ≤ c.toNat && c.toNat ≤ 90) || (97 ≤ c.toNat && c.toNat ≤ 122) ||
  (48 ≤ c.toNat && c.toNat ≤ 57) || c = '_'

def keepSlugChar (c : Char) : Bool := isWordChar c || isJsSpace c || c = '-'

def collapseRuns (p : Char → Bool) (r : Char) : List Char → List Char
  | [] => []
  | [c] => if p c then [r] else [c]
  | a :: b :: rest =>
    if p a && p b then collapseRuns p r (b :: rest)
    else (if p a then r else a) :: collapseRuns p r (b :: rest)

def generateSlug (title : String) : String :=
  ⟨collapseRuns (fun c => c = '-') '-'
    (collapseRuns isJsSpace '-'
      ((jsTrim (title.data.map jsToLower)).filter keepSlugChar))⟩

/-! ## Date normalization (`normalizeDateToISO`, event.model.ts lines 121–136)

The strict branch runs `new Date(Date.UTC(year, month - 1, day))` followed
by `toISOString().split('T')[0]`.  Per ECMAScript:

* `Date.UTC` first applies `MakeFullYear`: an integer year `0 ≤ y ≤ 99` is
  replaced by `1900 + y` (`makeFullYear` below);
* `MakeDay(y, m, d)` normalizes the 0-based month index by
  `ym = y + floor(m / 12)`, `mn = m modulo 12` and then counts days, so
  out-of-range month indices and days roll over (`utcDays` below);
* `toISOString` renders the UTC calendar date of the time value, padding
  the year to four digits (or using the expanded `+YYYYYY` form beyond
  9999) and month/day to two digits.

The day count is relative to the Unix epoch; `rataDie y m d` counts days
from 0001-01-01 (= day 0) in the proleptic Gregorian calendar, and
`epochRD` is the count for 1970-01-01.  `civilFromRD` recovers the
calendar date from a day count by the same year-by-year / month-by-month
search that the ECMAScript specification uses to define `YearFromTime` and
`MonthFromTime`.  All reachable day counts are non-negative (the strict
parser only produces four-digit years, hence years ≥ 99 after
`makeFullYear` and rollover), which keeps the search in `Nat`.
-/

def isLeap (y : Nat) : Bool :=
  y % 4 == 0 && (y % 100 != 0 || y % 400 == 0)

def monthLengths (y : Nat) : List Nat :=
  [31, if isLeap y then 29 else 28, 31, 30, 31, 30, 31, 31, 30, 31, 30, 31]

def daysInMonth (y m : Nat) : Nat := ((monthLengths y).drop (m - 1)).headD 31

def daysInYear (y : Nat) : Nat := if isLeap y then 366 else 365

def daysBeforeYear (y : Nat) : Nat :=
  365 * (y - 1) + (y - 1) / 4 + (y - 1) / 400 - (y - 1) / 100

def daysBeforeMonth (y m : Nat) : Nat := ((monthLengths y).take (m - 1)).sum

/-- Day number of the date `y-m-d` counted from 0001-01-01 = day 0. -/
def rataDie (y m d : Nat) : Nat :=
  daysBeforeYear y + daysBeforeMonth y m + (d - 1)

/-- Day number of 1970-01-01 (the Unix epoch). -/
def epochRD : Nat := daysBeforeYear 1970

/-- Year search: starting at year `y` with `n` days remaining, walk forward
year by year.  `fuel = n + 1` always suffices since every year consumes at
least 365 days. -/
def yearAndDoyAux : Nat → Nat → Nat → Nat × Nat
  | 0, y, n => (y, n)
  | fuel + 1, y, n =>
    if n < daysInYear y then (y, n) else yearAndDoyAux fuel (y + 1) (n - daysInYear y)

/-- Month search within a year: given the month-length table and a 0-based
day of year, return the 0-based month index and 0-based day of month. -/
def monthFromList : List Nat → Nat → Nat × Nat
  | [], doy => (0, doy)
  | len :: rest, doy =>
    if doy < len then (0, doy)
    else
      let p := monthFromList rest (doy - len)
      (p.1 + 1, p.2)

/-- Calendar date (1-based month and day) of day number `n` (days since
0001-01-01). -/
def civilFromRD (n : Nat) : Nat × Nat × Nat :=
  let yd := yearAndDoyAux (n + 1) 1 n
  let md := monthFromList (monthLengths yd.1) yd.2
  (yd.1, md.1 + 1, md.2 + 1)

/-- The date part of `toISOString` for a given calendar date. -/
def renderISO (y m d : Nat) : String :=
  (if y ≤ 9999 then fourDigits y else "+" ++ sixDigits y) ++ "-" ++
    twoDigits m ++ "-" ++ twoDigits d

/-- The date part of `Date.prototype.toISOString`, from a day count
relative to the Unix epoch. -/
def toISODate (daysSinceEpoch : Int) : String :=
  let n := (daysSinceEpoch + (epochRD : Int)).toNat
  let c := civilFromRD n
  renderISO c.1 c.2.1 c.2.2

/-- ECMAScript `MakeFullYear`: two-digit years denote the 1900s. -/
def makeFullYear (y : Int) : Int :=
  if 0 ≤ y && y ≤ 99 then y + 1900 else y

/-- ECMAScript `MakeDay` (scaled to days): day count since the epoch of
year `y`, 0-based month index `mIdx` and day-of-month `day`, with month
and day rollover. -/
def utcDays (y mIdx day : Int) : Int :=
  let ym := y + Int.ediv mIdx 12
  let mn := (Int.emod mIdx 12).toNat
  (rataDie ym.toNat (mn + 1) 1 : Int) + (day - 1) - (epochRD : Int)

/-- The strict-shape test and split of the source: the regex
`YYYY-MM-DD` (four digits, hyphen, two digits, hyphen, two digits)
followed by `split('-').map(Number)`. -/
def parseStrictDate (s : String) : Option (Nat × Nat × Nat) :=
  match s.data with
  | [y1, y2, y3, y4, h1, m1, m2, h2, d1, d2] =>
    if h1 = '-' && h2 = '-' && isDigitChar y1 && isDigitChar y2 &&
        isDigitChar y3 && isDigitChar y4 && isDigitChar m1 && isDigitChar m2 &&
        isDigitChar d1 && isDigitChar d2 then
      some (1000 * digitVal y1 + 100 * digitVal y2 + 10 * digitVal y3 + digitVal y4,
            10 * digitVal m1 + digitVal m2,
            10 * digitVal d1 + digitVal d2)
    else none
  | _ => none

/-- Embeds `normalizeDateToISO`.  `jsParse` is the host's general date
parser (`new Date(string)` for non-strict shapes), returning the parsed
time value in milliseconds, or `none` when the result is `NaN`.  On the
strict branch `Date.UTC` never yields `NaN` for the reachable component
ranges, so the source's `isNaN` check can only fire on the general
branch. -/
def normalizeDateToISO (jsParse : String → Option Int) (dateStr : String) :
    Except String String :=
  match parseStrictDate dateStr with
  | some (y, m, d) =>
    .ok (toISODate (utcDays (makeFullYear (y : Int)) ((m : Int) - 1) (d : Int)))
  | none =>
    match jsParse dateStr with
    | some ms => .ok (toISODate (Int.ediv ms 86400000))
    | none => .error ("Invalid date format: " ++ dateStr)

/-! ## Time normalization (`normalizeTime`, event.model.ts lines 142–172)

The source uppercases the trimmed input, first tries the 24-hour regex
(one or two digits, colon, exactly two digits, end of string) and accepts
it when the hour is between 0 and 23; otherwise it tries the 12-hour regex
(one or two digits, colon, two digits, optional whitespace, `AM` or `PM`,
end of string).  Both matchers below are exact encodings of those anchored
regexes: for these patterns greedy matching with backtracking coincides
with the structural match on the character list (the digit group is
followed by a colon, and the whitespace group by a letter, so no
backtracking alternative ever succeeds where maximal munch fails).
Note the hour of the 12-hour branch is *not* range-checked, and minutes
are never range-checked, in either branch.
-/

/-- The anchored 24-hour regex: `(\d` one or two `):(\d\d)$`, returning
the parsed hour and the raw two-character minutes. -/
def matchTime24 : List Char → Option (Nat × List Char)
  | [a, c, m1, m2] =>
    if isDigitChar a && c = ':' && isDigitChar m1 && isDigitChar m2 then
      some (digitVal a, [m1, m2])
    else none
  | [a, b, c, m1, m2] =>
    if isDigitChar a && isDigitChar b && c = ':' && isDigitChar m1 && isDigitChar m2 then
      some (10 * digitVal a + digitVal b, [m1, m2])
    else none
  | _ => none

/-- The tail of the 12-hour regex: optional whitespace, then `AM` or `PM`,
then end of string (the input has already been uppercased).  Returns
whether the marker is `PM`. -/
def matchAMPM (l : List Char) : Option Bool :=
  match l.dropWhile isJsSpace with
  | ['A', 'M'] => some false
  | ['P', 'M'] => some true
  | _ => none

/-- The anchored 12-hour regex, returning hour, raw minutes and the
`PM` flag. -/
def matchTime12 : List Char → Option (Nat × List Char × Bool)
  | a :: ':' :: m1 :: m2 :: rest =>
    if isDigitChar a && isDigitChar m1 && isDigitChar m2 then
      (matchAMPM rest).map (fun pm => (digitVal a, ([m1, m2], pm)))
    else none
  | a :: b :: ':' :: m1 :: m2 :: rest =>
    if isDigitChar a && isDigitChar b && isDigitChar m1 && isDigitChar m2 then
      (matchAMPM rest).map (fun pm => (10 * digitVal a + digitVal b, ([m1, m2], pm)))
    else none
  | _ => none

/-- The 12-hour branch of `normalizeTime`: `hours += 12` when `PM` and the
hour is not 12, `hours = 0` when `AM` and the hour is 12. -/
def time12Result (l : List Char) : Option String :=
  match matchTime12 l with
  | some (h, mm, pm) =>
    let h2 := if pm && h != 12 then h + 12 else if !pm && h == 12 then 0 else h
    some (jsPad2 h2 ++ ":" ++ String.mk mm)
  | none => none

/-- The matching pipeline of `normalizeTime` on the trimmed, uppercased
input: try the 24-hour shape (accept when the hour is at most 23), then
the 12-hour shape. -/
def normalizeTimeCore (t : List Char) : Option String :=
  match matchTime24 t with
  | some (h, mm) =>
    if h ≤ 23 then some (jsPad2 h ++ ":" ++ String.mk mm) else time12Result t
  | none => time12Result t

/-- Embeds `normalizeTime`: trim and uppercase, run the two matchers, and
throw `Invalid time format: <input>` (with the original argument) when
neither branch returns. -/
def normalizeTime (timeStr : String) : Except String String :=
  match normalizeTimeCore ((jsTrim timeStr.data).map jsToUpper) with
  | some out => .ok out
  | none => .error ("Invalid time format: " ++ timeStr)

/-! ## The Event pre-save hook (event.model.ts lines 175–222)

The hook receives the in-flight document plus mongoose's modification
flags (`isNew`, `isModified('title')`, `isModified('date')`,
`isModified('time')`), and the storage round-trip
`EventModel.exists({ slug, _id: { $ne: this._id } })` is abstracted as
`ex : String → Bool` (`true` = some *other* document already holds that
slug).  The `while (await EventModel.exists(...))` loop is embedded with
explicit fuel; the source loops until a free candidate is found, so any
fuel larger than the index of the first free candidate yields the loop's
result, and fuel exhaustion is reported as a distinguished error that no
theorem's hypotheses allow.
-/

structure EventDoc where
  title : String
  slug : String
  description : String
  overview : String
  image : String
  venue : String
  location : String
  date : String
  time : String
  mode : String
  audience : String
  organizer : String
  agenda : List String
  tags : List String
  deriving Repr, DecidableEq

structure SaveFlags where
  isNew : Bool
  titleModified : Bool
  dateModified : Bool
  timeModified : Bool
  deriving Repr, DecidableEq

/-- The k-th slug candidate tried by the loop: the base slug itself, then
`base-1`, `base-2`, … -/
def slugCandidate (base : String) (k : Nat) : String :=
  if k = 0 then base else base ++ "-" ++ natToStr k

/-- The uniqueness loop: `while (await EventModel.exists({slug, ...}))
{ slug = baseSlug + '-' + counter; counter++; }`. -/
def probeLoop (ex : String → Bool) (base slug : String) (counter : Nat) :
    Nat → Option String
  | 0 => none
  | fuel + 1 =>
    if ex slug then probeLoop ex base (base ++ "-" ++ natToStr counter) (counter + 1) fuel
    else some slug

/-- The required-field re-check at the end of the hook: the listed string
fields must be non-empty after trimming, scanned in source order, and the
first offender aborts the save with `<field> cannot be empty`. -/
def requiredFieldCheck (e : EventDoc) : Except String Unit :=
  let fields : List (String × String) :=
    [("title", e.title), ("description", e.description), ("overview", e.overview),
     ("image", e.image), ("venue", e.venue), ("location", e.location),
     ("date", e.date), ("time", e.time), ("mode", e.mode),
     ("audience", e.audience), ("organizer", e.organizer)]
  match fields.find? (fun fv => jsTrim fv.2.data = []) with
  | some fv => .error (fv.1 ++ " cannot be empty")
  | none => .ok ()

/-- Embeds `EventSchema.pre('save')`: regenerate the slug when the record
is new or the title changed, normalize the date and the time under the
analogous guards, then re-check required fields; any failure aborts the
save with that error. -/
def eventPreSave (ex : String → Bool) (jsParse : String → Option Int)
    (fuel : Nat) (fl : SaveFlags) (e : EventDoc) : Except String EventDoc :=
  let step1 : Except String EventDoc :=
    if fl.isNew || fl.titleModified then
      let base := generateSlug e.title
      match probeLoop ex base base 1 fuel with
      | some s => .ok { e with slug := s }
      | none => .error "slug probe fuel exhausted"
    else .ok e
  match step1 with
  | .error msg => .error msg
  | .ok e1 =>
    let step2 : Except String EventDoc :=
      if fl.isNew || fl.dateModified then
        match normalizeDateToISO jsParse e1.date with
        | .ok d => .ok { e1 with date := d }
        | .error msg => .error msg
      else .ok e1
    match step2 with
    | .error msg => .error msg
    | .ok e2 =>
      let step3 : Except String EventDoc :=
        if fl.isNew || fl.timeModified then
          match normalizeTime e2.time with
          | .ok t => .ok { e2 with time := t }
          | .error msg => .error msg
        else .ok e2
      match step3 with
      | .error msg => .error msg
      | .ok e3 =>
        match requiredFieldCheck e3 with
        | .ok _ => .ok e3
        | .error msg => .error msg

/-! ## The Booking pre-save hook (unnamed source file, `BookingSchema.pre('save')`)

The hook re-tests the email against
`EMAIL_REGEX = ^[^\s@]+@[^\s@]+\.[^\s@]+$` and then performs
`await Event.exists({ _id: this.eventId })`, abstracted as
`eventExists : String → Bool` over the referenced identifier's string
form.  Because the character class `[^\s@]` excludes `@`, a string matches
the regex exactly when it has a single `@`, a non-empty left part with no
whitespace, and a right part with no whitespace or `@` containing a dot
that is neither its first nor its last character (`M.T` with `M`, `T`
non-empty); `emailRegexTest` encodes that characterization directly.
-/

def okEmailChar (c : Char) : Bool := !isJsSpace c && c != '@'

/-- Split a character list at its first `@`, when one exists. -/
def splitAtFirstAt : List Char → Option (List Char × List Char)
  | [] => none
  | '@' :: rest => some ([], rest)
  | c :: rest =>
    match splitAtFirstAt rest with
    | some (a, b) => some (c :: a, b)
    | none => none

/-- A dot occurring at neither end of the list. -/
def hasInteriorDot (l : List Char) : Bool := ((l.drop 1).dropLast).contains '.'

/-- The booking email regex test. -/
def emailRegexTest (s : String) : Bool :=
  match splitAtFirstAt s.data with
  | some (a, b) => !a.isEmpty && a.all okEmailChar && b.all okEmailChar && hasInteriorDot b
  | none => false

structure Booking where
  eventId : String
  email : String
  deriving Repr, DecidableEq

/-- Embeds `BookingSchema.pre('save')`: email check first, then the
referenced-event existence lookup; either failure aborts the save. -/
def bookingPreSave (eventExists : String → Bool) (b : Booking) : Except String Unit :=
  if !emailRegexTest b.email then
    .error ("Invalid email format: " ++ b.email)
  else if !eventExists b.eventId then
    .error ("Event with ID " ++ b.eventId ++ " does not exist")
  else .ok ()

/-- A booking save against a straightforwardly modelled store: the hook
runs first, and only on success is the document appended. -/
def bookingSave (eventExists : String → Bool) (store : List Booking) (b : Booking) :
    Except String (List Booking) :=
  match bookingPreSave eventExists b with
  | .error msg => .error msg
  | .ok _ => .ok (store ++ [b])

/-! ## Spec-side predicates

These encode properties asserted by the specification (not by the source),
for comparison against the embedded functions.
-/

/-- The character set the specification claims for slugs: `[a-z0-9-]`. -/
def specSlugCharOk (c : Char) : Bool :=
  (97 ≤ c.toNat && c.toNat ≤ 122) || (48 ≤ c.toNat && c.toNat ≤ 57) || c = '-'

/-- The slug character set the source actually guarantees: `[a-z0-9_-]`. -/
def actualSlugCharOk (c : Char) : Bool := specSlugCharOk c || c = '_'

def hasDoubleHyphen : List Char → Bool
  | a :: b :: rest => (a = '-' && b = '-') || hasDoubleHyphen (b :: rest)
  | _ => false

/-- The specification's claimed slug shape: only `[a-z0-9-]`, and no
leading, trailing or consecutive hyphens. -/
def specSlugOk (s : String) : Bool :=
  s.data.all specSlugCharOk && !(s.data.head? == some '-') &&
    !(s.data.getLast? == some '-') && !hasDoubleHyphen s.data

/-- The specification's claimed output shape for `normalizeTime`:
zero-padded 24-hour `HH:MM` (hour at most 23). -/
def isPadded24HourHHMM (s : String) : Bool :=
  match s.data with
  | [a, b, c, m1, m2] =>
    isDigitChar a && isDigitChar b && c = ':' && isDigitChar m1 && isDigitChar m2 &&
      decide (10 * digitVal a + digitVal b ≤ 23)
  | _ => false

/-! ## Helper lemmas -/

theorem toNat_ofNat_small (n : Nat) (h : n ≤ 122) : (Char.ofNat n).toNat = n := by
  have hv : n < 55296 ∨ (57343 < n ∧ n < 1114112) := Or.inl (by omega)
  simp [Char.ofNat, dif_pos hv, Char.ofNatAux, Char.toNat, UInt32.toNat, UInt32.ofNatCore]

theorem jsToLower_not_upper (c : Char) :
    ¬(65 ≤ (jsToLower c).toNat ∧ (jsToLower c).toNat ≤ 90) := by
  unfold jsToLower
  split
  · rename_i h
    rw [toNat_ofNat_small (c.toNat + 32) (by omega)]
    omega
  · rename_i h
    omega

theorem dropWhile_first_not {α} (p : α → Bool) :
    ∀ (l : List α) (c : α) (t : List α), l.dropWhile p = c :: t → p c = false := by
  intro l
  induction l with
  | nil => intro c t h; simp [List.dropWhile] at h
  | cons a as ih =>
    intro c t h
    rw [List.dropWhile_cons] at h
    by_cases hp : p a
    · rw [if_pos hp] at h; exact ih c t h
    · rw [if_neg hp] at h
      cases h
      simpa using hp

theorem collapseRuns_cons_neg (p : Char → Bool) (r b : Char) (rest : List Char)
    (h : p b = false) : collapseRuns p r (b :: rest) = b :: collapseRuns p r rest := by
  cases rest with
  | nil => simp [collapseRuns, h]
  | cons c t => simp [collapseRuns, h]

theorem collapseRuns_cons_pos (p : Char → Bool) (r : Char) :
    ∀ (rest : List Char) (b : Char), p b = true →
      collapseRuns p r (b :: rest) = r :: collapseRuns p r (rest.dropWhile p) := by
  intro rest
  induction rest with
  | nil => intro b hb; simp [collapseRuns, hb]
  | cons c t ih =>
    intro b hb
    by_cases hc : p c = true
    · have h1 : collapseRuns p r (b :: c :: t) = collapseRuns p r (c :: t) := by
        simp [collapseRuns, hb, hc]
      rw [h1, ih c hc, List.dropWhile_cons, if_pos hc]
    · have h1 : collapseRuns p r (b :: c :: t) = r :: collapseRuns p r (c :: t) := by
        simp [collapseRuns, hb, hc]
      rw [h1, List.dropWhile_cons, if_neg hc]

theorem collapseRuns_mem (p : Char → Bool) (r : Char) :
    ∀ (l : List Char) (c : Char), c ∈ collapseRuns p r l → c = r ∨ (c ∈ l ∧ p c = false)
  | [], c, h => by simp [collapseRuns] at h
  | b :: rest, c, h => by
    by_cases hb : p b = true
    · rw [collapseRuns_cons_pos p r rest b hb] at h
      rcases List.mem_cons.mp h with h1 | h2
      · exact Or.inl h1
      · rcases collapseRuns_mem p r (rest.dropWhile p) c h2 with h3 | ⟨h4, h5⟩
        · exact Or.inl h3
        · exact Or.inr ⟨List.mem_cons_of_mem _ ((List.dropWhile_suffix p).subset h4), h5⟩
    · rw [collapseRuns_cons_neg p r b rest (by simpa using hb)] at h
      rcases List.mem_cons.mp h with h1 | h2
      · subst h1; exact Or.inr ⟨List.mem_cons_self _ _, by simpa using hb⟩
      · rcases collapseRuns_mem p r rest c h2 with h3 | ⟨h4, h5⟩
        · exact Or.inl h3
        · exact Or.inr ⟨List.mem_cons_of_mem _ h4, h5⟩
  termination_by l _ _ => l.length
  decreasing_by
  · simp only [List.length_cons]
    have := (@List.dropWhile_suffix _ rest p).length_le
    omega
  · simp [List.length_cons]

theorem collapseRuns_chain (p : Char → Bool) (r : Char) (hr : p r = true) :
    ∀ l : List Char,
      List.Chain' (fun a b => ¬(p a = true ∧ p b = true)) (collapseRuns p r l)
  | [] => by simp [collapseRuns]
  | b :: rest => by
    by_cases hb : p b = true
    · rw [collapseRuns_cons_pos p r rest b hb]
      refine List.chain'_cons'.mpr ⟨?_, collapseRuns_chain p r hr (rest.dropWhile p)⟩
      intro y hy
      cases hd : rest.dropWhile p with
      | nil => rw [hd] at hy; simp [collapseRuns] at hy
      | cons c t =>
        have hc : p c = false := dropWhile_first_not p rest c t hd
        rw [hd, collapseRuns_cons_neg p r c t hc] at hy
        simp only [List.head?_cons, Option.mem_def, Option.some.injEq] at hy
        subst hy
        simp [hc]
    · rw [collapseRuns_cons_neg p r b rest (by simpa using hb)]
      refine List.chain'_cons'.mpr ⟨?_, collapseRuns_chain p r hr rest⟩
      intro y _
      simp [hb]
  termination_by l => l.length
  decreasing_by
  · simp only [List.length_cons]
    have := (@List.dropWhile_suffix _ rest p).length_le
    omega
  · simp [List.length_cons]

/-! ## Claim C1 — connection failures are cached, not reset -/

/-- C1: refuted by evaluation — a first `connectToDatabase` call whose
underlying connection attempt rejects leaves the rejected promise in the
module cache (`conn = none`, `promise = some (error)`), and a second call
whose fresh attempt would succeed (`.ok 7`) still returns the original
error from the cached promise: the failed attempt is replayed, not
retried.  The source never clears `cached.promise` on failure. -/
theorem connectToDatabase_replays_cached_failure :
    connectToDatabase (.error "connect failed") ⟨none, none⟩ =
      (.error "connect failed", ⟨none, some (.error "connect failed")⟩) ∧
    connectToDatabase (.ok 7) ⟨none, some (.error "connect failed")⟩ =
      (.error "connect failed", ⟨none, some (.error "connect failed")⟩) :=
  ⟨rfl, rfl⟩

/-! ## Claim C2 — the missing-URI error fires at module load -/

/-- C2 counterexample: with `MONGODB_URI` absent, evaluating the module
body itself (the top-level guard of `src/lib/mongodb.ts`) already throws;
the error is not deferred to the first `connectToDatabase` call. -/
theorem mongodbModuleInit_fails_before_any_connect :
    (mongodbModuleInit Option.none).isOk = false := rfl

/-- C2 amended: when `MONGODB_URI` is absent — or present but empty,
which the source guard's `!MONGODB_URI` also treats as missing — the
`ConfigurationError` is raised at module load time, before
`connectToDatabase` can even be called; when it is present and
non-empty, module load succeeds and the connection attempt happens at
the first `connectToDatabase` call (an empty cache runs and caches the
fresh attempt). -/
theorem mongodbModuleInit_raises_at_load_time :
    mongodbModuleInit Option.none =
      .error "Please define the MONGODB_URI environment variable" ∧
    mongodbModuleInit (Option.some "") =
      .error "Please define the MONGODB_URI environment variable" ∧
    (∀ uri : String, uri ≠ "" → mongodbModuleInit (Option.some uri) = .ok uri) ∧
    connectToDatabase (.ok 0) ⟨none, none⟩ = (.ok 0, ⟨some 0, some (.ok 0)⟩) := by
  refine ⟨rfl, rfl, ?_, rfl⟩
  intro uri h
  simp [mongodbModuleInit, h]

/-- C2 witness: the present-and-non-empty conjunct applied at a concrete
connection string. -/
theorem mongodbModuleInit_raises_at_load_time_witness :
    mongodbModuleInit (Option.some "mongodb://localhost/dev-events") =
      .ok "mongodb://localhost/dev-events" :=
  mongodbModuleInit_raises_at_load_time.2.2.1 "mongodb://localhost/dev-events" (by decide)

/-! ## Claim C3 — slug shape -/

/-- C3 counterexample: the title `"-a_b-"` passes through `generateSlug`
unchanged, so the slug keeps an underscore (outside `[a-z0-9-]`) and both
a leading and a trailing hyphen, refuting the claimed shape. -/
theorem generateSlug_spec_shape_refuted :
    generateSlug "-a_b-" = "-a_b-" ∧ specSlugOk (generateSlug "-a_b-") = false :=
  ⟨by decide, by decide⟩

/-- C3 amended: for every title the derived slug is lowercase and contains
no characters outside `[a-z0-9_-]` (underscores survive the `\w` class),
and it never contains two consecutive hyphens; leading or trailing hyphens
can remain when the title itself starts or ends with hyphen or an interior
whitespace run touches the ends after trimming. -/
theorem generateSlug_charset_and_no_double_hyphen (t : String) :
    (generateSlug t).data.all actualSlugCharOk = true ∧
    List.Chain' (fun a b => ¬(a = '-' ∧ b = '-')) (generateSlug t).data := by
  constructor
  · rw [List.all_eq_true]
    intro c hc
    rcases collapseRuns_mem _ '-' _ c hc with rfl | ⟨hc1, _⟩
    · decide
    · rcases collapseRuns_mem isJsSpace '-' _ c hc1 with rfl | ⟨hc2, hsp⟩
      · decide
      · obtain ⟨hmem, hkeep⟩ := List.mem_filter.mp hc2
        have hmap : c ∈ t.data.map jsToLower := by
          unfold jsTrim at hmem
          have h1 := List.mem_reverse.mp hmem
          have h2 := (List.dropWhile_suffix isJsSpace).subset h1
          have h3 := List.mem_reverse.mp h2
          exact (List.dropWhile_suffix isJsSpace).subset h3
        obtain ⟨c0, _, rfl⟩ := List.mem_map.mp hmap
        have hnu := jsToLower_not_upper c0
        unfold keepSlugChar isWordChar at hkeep
        unfold actualSlugCharOk specSlugCharOk
        simp only [Bool.or_eq_true, Bool.and_eq_true, decide_eq_true_eq] at hkeep ⊢
        rcases hkeep with ((((⟨h1, h2⟩ | h) | h) | h) | h) | h
        · exact absurd ⟨h1, h2⟩ hnu
        · tauto
        · tauto
        · tauto
        · exact absurd h (by simp [hsp])
        · tauto
  · have hchain := collapseRuns_chain (fun c => c = '-') '-' (by decide)
      (collapseRuns isJsSpace '-'
        ((jsTrim (t.data.map jsToLower)).filter keepSlugChar))
    exact List.Chain'.imp
      (fun a b hab => by
        intro ⟨ha, hb⟩
        exact hab ⟨by simp [ha], by simp [hb]⟩)
      hchain

/-! ## Claim C4 — time normalization -/

/-- C4 counterexample: `"13:00 PM"` is accepted by the 12-hour branch
(whose hour is never range-checked) and maps to `"25:00"`, which is not a
24-hour `HH:MM` time; the claim requires every input that is not a
well-formed 24-hour or 12-hour time to raise, and the output to always be
24-hour `HH:MM`. -/
theorem normalizeTime_spec_shape_refuted :
    normalizeTime "13:00 PM" = .ok "25:00" ∧ isPadded24HourHHMM "25:00" = false :=
  ⟨by decide, by decide⟩

/-- C4 amended: the five documented examples normalize as claimed;
AM/PM is case-insensitive and whitespace before the marker is optional;
every 24-hour `H:MM`/`HH:MM` input with hour 0–23 is accepted and
zero-padded; inputs matching neither regex raise `Invalid time format:`
naming the offending value — but the 12-hour branch accepts *any* one- or
two-digit hour with an AM/PM marker, so hours above 12 with `PM` produce
out-of-range outputs such as `"25:00"` instead of an error. -/
theorem normalizeTime_amended :
    normalizeTime "2:30 PM" = .ok "14:30" ∧
    normalizeTime "2:30pm" = .ok "14:30" ∧
    normalizeTime "14:30" = .ok "14:30" ∧
    normalizeTime "12:00 AM" = .ok "00:00" ∧
    normalizeTime "12:00 PM" = .ok "12:00" ∧
    normalizeTime "2:30 pm" = .ok "14:30" ∧
    normalizeTime "2:30PM" = .ok "14:30" ∧
    (∀ h : Fin 24, normalizeTime (natToStr h.val ++ ":30") = .ok (jsPad2 h.val ++ ":30")) ∧
    normalizeTime "24:00" = .error "Invalid time format: 24:00" ∧
    normalizeTime "2:5" = .error "Invalid time format: 2:5" ∧
    normalizeTime "noon" = .error "Invalid time format: noon" ∧
    normalizeTime "13:00 PM" = .ok "25:00" ∧
    (∀ s e : String, normalizeTime s = .error e → e = "Invalid time format: " ++ s) := by
  refine ⟨by decide, by decide, by decide, by decide, by decide, by decide, by decide,
    by decide, by decide, by decide, by decide, by decide, ?_⟩
  intro s e h
  unfold normalizeTime at h
  cases hc : normalizeTimeCore ((jsTrim s.data).map jsToUpper) with
  | some out => rw [hc] at h; exact absurd h (by simp)
  | none =>
    rw [hc] at h
    simp only [Except.error.injEq] at h
    exact h.symm

/-- C4 witness: the error-message conjunct applied at the concrete
rejected input `"2:5"`. -/
theorem normalizeTime_amended_witness :
    "Invalid time format: 2:5" = "Invalid time format: " ++ "2:5" :=
  normalizeTime_amended.2.2.2.2.2.2.2.2.2.2.2.2 "2:5" "Invalid time format: 2:5" (by decide)

/-! ## Claim C9 — minutes are not validated -/

set_option maxHeartbeats 2000000 in
/-- C9: the minutes component is never range-checked: for every hour 0–23
and every two-digit minutes string `00`–`99` (including values above 59,
e.g. `"14:75"`), the input is accepted and returned zero-padded rather
than raising an error. -/
theorem normalizeTime_minutes_unchecked :
    normalizeTime "14:75" = .ok "14:75" ∧
    ∀ (h : Fin 24) (m : Fin 100),
      normalizeTime (jsPad2 h.val ++ ":" ++ twoDigits m.val) =
        .ok (jsPad2 h.val ++ ":" ++ twoDigits m.val) :=
  ⟨by decide, by decide⟩

/-! ## Claim C7 — booking guards -/

/-- C7: a booking whose email fails the regex aborts with an error naming
the email, independently of the storage lookup (the result is the same
for every `eventExists`, so no lookup can influence it), and no document
is appended; a booking with a valid email whose referenced event does not
exist aborts with an error naming the identifier, and again no document
is appended. -/
theorem bookingSave_guards (ex1 ex2 : String → Bool) (store : List Booking) (b : Booking) :
    (emailRegexTest b.email = false →
      bookingSave ex1 store b = .error ("Invalid email format: " ++ b.email) ∧
      bookingSave ex1 store b = bookingSave ex2 store b) ∧
    (emailRegexTest b.email = true → ex1 b.eventId = false →
      bookingSave ex1 store b = .error ("Event with ID " ++ b.eventId ++ " does not exist")) := by
  constructor
  · intro he
    unfold bookingSave bookingPreSave
    rw [he]
    simp
  · intro he hx
    unfold bookingSave bookingPreSave
    rw [he, hx]
    simp

/-- C7 witness: the two guard branches at concrete bookings — the invalid
email `"not-an-email"` and a valid email referencing the missing event
identifier `"abc123"`. -/
theorem bookingSave_guards_witness :
    bookingSave (fun _ => true) [] ⟨"evt1", "not-an-email"⟩ =
      .error ("Invalid email format: " ++ "not-an-email") ∧
    bookingSave (fun _ => false) [] ⟨"abc123", "user@example.com"⟩ =
      .error ("Event with ID " ++ "abc123" ++ " does not exist") :=
  ⟨((bookingSave_guards (fun _ => true) (fun _ => true) [] ⟨"evt1", "not-an-email"⟩).1
      (by decide)).1,
    (bookingSave_guards (fun _ => false) (fun _ => false) [] ⟨"abc123", "user@example.com"⟩).2
      (by decide) rfl⟩

/-! ## Claim C8 — updates not touching title/date/time keep slug/date/time -/

/-- C8: when the record is not new and none of title, date, time is marked
modified (e.g. an update changing only the description), a successful run
of the pre-save hook returns the document with `slug`, `date` and `time`
exactly as they were. -/
theorem eventPreSave_frame (ex : String → Bool) (jsParse : String → Option Int)
    (fuel : Nat) (e e2 : EventDoc)
    (h : eventPreSave ex jsParse fuel ⟨false, false, false, false⟩ e = .ok e2) :
    e2.slug = e.slug ∧ e2.date = e.date ∧ e2.time = e.time := by
  unfold eventPreSave at h
  simp at h
  cases hr : requiredFieldCheck e with
  | ok u => rw [hr] at h; simp only [Except.ok.injEq] at h; subst h; exact ⟨rfl, rfl, rfl⟩
  | error m => rw [hr] at h; simp at h

/-- C8 witness: a not-new, nothing-relevant-modified save at a concrete
document (with raw, never-normalized `date`/`time` strings) keeps its
slug, date and time. -/
theorem eventPreSave_frame_witness :
    eventPreSave (fun _ => false) (fun _ => none) 1 ⟨false, false, false, false⟩
        ⟨"Dev Summit!", "old-slug", "d", "o", "i", "v", "l", "raw date", "raw time",
          "online", "a", "org", ["x"], ["t"]⟩ =
      .ok ⟨"Dev Summit!", "old-slug", "d", "o", "i", "v", "l", "raw date", "raw time",
          "online", "a", "org", ["x"], ["t"]⟩ ∧
    ("old-slug" = "old-slug" ∧ "raw date" = "raw date" ∧ "raw time" = "raw time") :=
  ⟨by decide,
    eventPreSave_frame (fun _ => false) (fun _ => none) 1
      ⟨"Dev Summit!", "old-slug", "d", "o", "i", "v", "l", "raw date", "raw time",
        "online", "a", "org", ["x"], ["t"]⟩
      ⟨"Dev Summit!", "old-slug", "d", "o", "i", "v", "l", "raw date", "raw time",
        "online", "a", "org", ["x"], ["t"]⟩
      (by decide)⟩

/-! ## Claim C6 — sequential slug collision probe -/

theorem probeLoop_finds_first_free (ex : String → Bool) (base : String) :
    ∀ (fuel j n : Nat), j ≤ n →
      (∀ k, j ≤ k → k < n → ex (slugCandidate base k) = true) →
      ex (slugCandidate base n) = false →
      n - j < fuel →
      probeLoop ex base (slugCandidate base j) (j + 1) fuel = some (slugCandidate base n) := by
  intro fuel
  induction fuel with
  | zero => intro j n _ _ _ h4; omega
  | succ f ih =>
    intro j n h1 h2 h3 h4
    unfold probeLoop
    by_cases hj : j = n
    · subst hj
      rw [h3]
      simp
    · rw [h2 j (Nat.le_refl j) (by omega)]
      simp only [if_true]
      rw [show base ++ "-" ++ natToStr (j + 1) = slugCandidate base (j + 1) by
        unfold slugCandidate; rw [if_neg (by omega)]]
      exact ih (j + 1) n (by omega) (fun k hk1 hk2 => h2 k (by omega) hk2) h3 (by omega)

/-- C6: on a save that regenerates the slug, the hook probes the
candidates `base`, `base-1`, `base-2`, … in increasing order, re-checking
existence (against other records, via `ex`) for every candidate, and the
document is stored with the first candidate that does not exist: whenever
every candidate below `n` exists and candidate `n` does not, the hook
returns the document with slug `slugCandidate base n` (with the date and
time fields normalized as usual).  Instantiating `n = 1` and `n = 2` gives
the claimed second-save `-1` and third-save `-2` suffixes (see the
witness). -/
theorem eventPreSave_slug_probe (ex : String → Bool) (jsParse : String → Option Int)
    (b1 b2 b3 : Bool) (e : EventDoc) (n fuel : Nat) (d2 t2 : String)
    (hk : ∀ k, k < n → ex (slugCandidate (generateSlug e.title) k) = true)
    (hn : ex (slugCandidate (generateSlug e.title) n) = false)
    (hf : n < fuel)
    (hd : normalizeDateToISO jsParse e.date = .ok d2)
    (ht : normalizeTime e.time = .ok t2)
    (hr : requiredFieldCheck
      { e with slug := slugCandidate (generateSlug e.title) n, date := d2, time := t2 } = .ok ()) :
    eventPreSave ex jsParse fuel ⟨true, b1, b2, b3⟩ e =
      .ok { e with slug := slugCandidate (generateSlug e.title) n, date := d2, time := t2 } := by
  have h0 : slugCandidate (generateSlug e.title) 0 = generateSlug e.title := by
    unfold slugCandidate; simp
  have hprobe : probeLoop ex (generateSlug e.title) (generateSlug e.title) 1 fuel =
      some (slugCandidate (generateSlug e.title) n) := by
    have hmain := probeLoop_finds_first_free ex (generateSlug e.title) fuel 0 n
      (by omega) (fun k _ hk2 => hk k hk2) hn (by omega)
    rw [h0] at hmain
    exact hmain
  unfold eventPreSave
  simp only [Bool.true_or, if_true, hprobe]
  simp [hd, ht, hr]

set_option maxRecDepth 100000 in
/-- C6 witness: with `"dev-summit"` already taken, a new save of a record
titled `"Dev Summit!"` gets slug `"dev-summit-1"`; with both
`"dev-summit"` and `"dev-summit-1"` taken, it gets `"dev-summit-2"`. -/
theorem eventPreSave_slug_probe_witness :
    eventPreSave (fun s => s == "dev-summit") (fun _ => none) 10 ⟨true, false, false, false⟩
        ⟨"Dev Summit!", "", "d", "o", "i", "v", "l", "2024-05-20", "2:30 PM", "online",
          "a", "org", ["x"], ["t"]⟩ =
      .ok ⟨"Dev Summit!", "dev-summit-1", "d", "o", "i", "v", "l", "2024-05-20", "14:30",
          "online", "a", "org", ["x"], ["t"]⟩ ∧
    eventPreSave (fun s => s == "dev-summit" || s == "dev-summit-1") (fun _ => none) 10
        ⟨true, false, false, false⟩
        ⟨"Dev Summit!", "", "d", "o", "i", "v", "l", "2024-05-20", "2:30 PM", "online",
          "a", "org", ["x"], ["t"]⟩ =
      .ok ⟨"Dev Summit!", "dev-summit-2", "d", "o", "i", "v", "l", "2024-05-20", "14:30",
          "online", "a", "org", ["x"], ["t"]⟩ :=
  ⟨eventPreSave_slug_probe (fun s => s == "dev-summit") (fun _ => none) false false false
      ⟨"Dev Summit!", "", "d", "o", "i", "v", "l", "2024-05-20", "2:30 PM", "online",
        "a", "org", ["x"], ["t"]⟩ 1 10 "2024-05-20" "14:30"
      (by intro k hk; have hk0 : k = 0 := by omega
          subst hk0; rfl) rfl (by omega) (by decide) (by decide)
      (by decide),
    eventPreSave_slug_probe (fun s => s == "dev-summit" || s == "dev-summit-1")
      (fun _ => none) false false false
      ⟨"Dev Summit!", "", "d", "o", "i", "v", "l", "2024-05-20", "2:30 PM", "online",
        "a", "org", ["x"], ["t"]⟩ 2 10 "2024-05-20" "14:30"
      (by intro k hk; interval_cases k <;> rfl) rfl (by omega) (by decide) (by decide)
      (by decide)⟩

/-! ## Calendar lemmas for Claim C5 -/

theorem daysBeforeYear_succ (y : Nat) (hy : 1 ≤ y) :
    daysBeforeYear (y + 1) = daysBeforeYear y + daysInYear y := by
  unfold daysBeforeYear daysInYear isLeap
  rw [show y + 1 - 1 = y by omega]
  by_cases h4 : y % 4 = 0
  · by_cases h100 : y % 100 = 0
    · by_cases h400 : y % 400 = 0
      · rw [if_pos (by simp [h4, h100, h400])]
        omega
      · rw [if_neg (by simp [h4, h100, h400])]
        omega
    · rw [if_pos (by simp [h4, h100])]
      omega
  · rw [if_neg (by simp [h4])]
    omega

theorem daysBeforeYear_mono (y t : Nat) (h1 : 1 ≤ y) (h2 : y ≤ t) :
    daysBeforeYear y ≤ daysBeforeYear t := by
  induction t with
  | zero => omega
  | succ t ih =>
    by_cases h : y = t + 1
    · subst h; exact Nat.le_refl _
    · have hyt : y ≤ t := by omega
      have hs := daysBeforeYear_succ t (by omega)
      have hih := ih hyt
      omega

theorem yearAndDoyAux_correct :
    ∀ (fuel y t doy : Nat), 1 ≤ y → y ≤ t → doy < daysInYear t →
      t - y < fuel →
      yearAndDoyAux fuel y (daysBeforeYear t + doy - daysBeforeYear y) = (t, doy) := by
  intro fuel
  induction fuel with
  | zero => intro y t doy _ _ _ h4; omega
  | succ f ih =>
    intro y t doy h1 h2 h3 h4
    unfold yearAndDoyAux
    by_cases hyt : y = t
    · subst hyt
      rw [show daysBeforeYear y + doy - daysBeforeYear y = doy by omega, if_pos h3]
    · have hlt : y < t := by omega
      have hsucc := daysBeforeYear_succ y h1
      have hmono := daysBeforeYear_mono (y + 1) t (by omega) (by omega)
      have hy1 : 0 < daysInYear y := by unfold daysInYear; split <;> omega
      rw [if_neg (by omega)]
      rw [show daysBeforeYear t + doy - daysBeforeYear y - daysInYear y =
        daysBeforeYear t + doy - daysBeforeYear (y + 1) by omega]
      exact ih (y + 1) t doy (by omega) (by omega) h3 (by omega)

theorem monthFromList_correct :
    ∀ (pre : List Nat) (len : Nat) (post : List Nat) (j : Nat), j < len →
      monthFromList (pre ++ len :: post) (pre.sum + j) = (pre.length, j) := by
  intro pre
  induction pre with
  | nil => intro len post j hj; simp [monthFromList, hj]
  | cons p rest ih =>
    intro len post j hj
    simp only [List.cons_append, List.sum_cons, List.length_cons]
    unfold monthFromList
    rw [if_neg (by omega)]
    rw [show p + rest.sum + j - p = rest.sum + j by omega]
    rw [ih len post j hj]

theorem monthLengths_split (y m : Nat) (h1 : 1 ≤ m) (h2 : m ≤ 12) :
    monthLengths y =
      (monthLengths y).take (m - 1) ++ daysInMonth y m :: (monthLengths y).drop m := by
  interval_cases m <;> rfl

theorem daysBeforeMonth_add_le (y m : Nat) (h1 : 1 ≤ m) (h2 : m ≤ 12) :
    daysBeforeMonth y m + daysInMonth y m ≤ daysInYear y := by
  unfold daysBeforeMonth daysInMonth daysInYear monthLengths
  interval_cases m <;> cases hl : isLeap y <;> simp [hl]

theorem civilFromRD_rataDie (y m d : Nat) (hy : 1 ≤ y) (hm1 : 1 ≤ m) (hm2 : m ≤ 12)
    (hd1 : 1 ≤ d) (hd2 : d ≤ daysInMonth y m) :
    civilFromRD (rataDie y m d) = (y, m, d) := by
  have hbound := daysBeforeMonth_add_le y m hm1 hm2
  have hdoy : daysBeforeMonth y m + (d - 1) < daysInYear y := by omega
  have hyd : yearAndDoyAux (daysBeforeYear y + daysBeforeMonth y m + (d - 1) + 1) 1
      (daysBeforeYear y + daysBeforeMonth y m + (d - 1)) =
      (y, daysBeforeMonth y m + (d - 1)) := by
    have hfuel : y - 1 < daysBeforeYear y + daysBeforeMonth y m + (d - 1) + 1 := by
      unfold daysBeforeYear; omega
    have h := yearAndDoyAux_correct (daysBeforeYear y + daysBeforeMonth y m + (d - 1) + 1)
      1 y (daysBeforeMonth y m + (d - 1)) (Nat.le_refl 1) hy hdoy hfuel
    rw [show daysBeforeYear 1 = 0 from rfl] at h
    rw [show daysBeforeYear y + (daysBeforeMonth y m + (d - 1)) - 0 =
      daysBeforeYear y + daysBeforeMonth y m + (d - 1) by omega] at h
    exact h
  have hmonth : monthFromList (monthLengths y) (daysBeforeMonth y m + (d - 1)) =
      (m - 1, d - 1) := by
    conv_lhs => rw [monthLengths_split y m hm1 hm2]
    rw [show daysBeforeMonth y m = ((monthLengths y).take (m - 1)).sum from rfl]
    rw [monthFromList_correct ((monthLengths y).take (m - 1)) (daysInMonth y m)
      ((monthLengths y).drop m) (d - 1) (by omega)]
    rw [List.length_take]
    congr 1
    unfold monthLengths
    simp
    omega
  unfold civilFromRD rataDie
  simp only [hyd, hmonth]
  rw [show m - 1 + 1 = m by omega, show d - 1 + 1 = d by omega]

theorem isDigitChar_digitChar (k : Nat) : isDigitChar (digitChar k) = true := by
  rcases k with _|_|_|_|_|_|_|_|_|k <;> rfl

theorem digitVal_digitChar (k : Nat) (hk : k ≤ 9) : digitVal (digitChar k) = k := by
  interval_cases k <;> decide

theorem render_explicit (y m d : Nat) (hy : y ≤ 9999) :
    renderISO y m d =
      ⟨[digitChar (y / 1000 % 10), digitChar (y / 100 % 10), digitChar (y / 10 % 10),
        digitChar (y % 10), '-', digitChar (m / 10 % 10), digitChar (m % 10), '-',
        digitChar (d / 10 % 10), digitChar (d % 10)]⟩ := by
  unfold renderISO fourDigits twoDigits
  rw [if_pos hy]
  rfl

theorem parse_render (y m d : Nat) (hy : y ≤ 9999) (hm : m ≤ 99) (hd : d ≤ 99) :
    parseStrictDate (renderISO y m d) = some (y, m, d) := by
  rw [render_explicit y m d hy]
  simp only [parseStrictDate]
  rw [if_pos (by simp [isDigitChar_digitChar])]
  rw [digitVal_digitChar (y / 1000 % 10) (by omega), digitVal_digitChar (y / 100 % 10) (by omega),
    digitVal_digitChar (y / 10 % 10) (by omega), digitVal_digitChar (y % 10) (by omega),
    digitVal_digitChar (m / 10 % 10) (by omega), digitVal_digitChar (m % 10) (by omega),
    digitVal_digitChar (d / 10 % 10) (by omega), digitVal_digitChar (d % 10) (by omega)]
  simp only [Option.some.injEq, Prod.mk.injEq]
  refine ⟨by omega, by omega, by omega⟩

/-! ## Claim C5 — strict-shape date normalization -/

set_option maxRecDepth 100000 in
/-- C5 counterexample: `"0024-05-20"` matches the strict literal shape and
denotes the valid calendar date 24-05-20, but `Date.UTC` maps integer
years 0–99 to 1900+, so the source returns `"1924-05-20"`, not the same
string back. -/
theorem normalizeDateToISO_year_quirk :
    normalizeDateToISO (fun _ => none) "0024-05-20" = .ok "1924-05-20" ∧
    ("1924-05-20" : String) ≠ "0024-05-20" :=
  ⟨by decide, by decide⟩

/-- C5 amended: for every strict-shape input denoting a valid calendar
date whose year is between 100 and 9999, the same `YYYY-MM-DD` string is
returned unchanged (interpreted as a UTC calendar date, no day shift);
years 0000–0099 are instead shifted to 1900–1999 by the `Date.UTC`
two-digit-year rule.  An input that matches neither the strict shape nor
the host's general date parser raises `Invalid date format:` naming the
offending value. -/
theorem normalizeDateToISO_amended (jsParse : String → Option Int) :
    (∀ y m d : Nat, 100 ≤ y → y ≤ 9999 → 1 ≤ m → m ≤ 12 → 1 ≤ d → d ≤ daysInMonth y m →
      normalizeDateToISO jsParse (renderISO y m d) = .ok (renderISO y m d)) ∧
    (∀ s : String, parseStrictDate s = none → jsParse s = none →
      normalizeDateToISO jsParse s = .error ("Invalid date format: " ++ s)) := by
  constructor
  · intro y m d h100 h9999 hm1 hm2 hd1 hd2
    have hmf : makeFullYear (y : Int) = (y : Int) := by
      unfold makeFullYear
      rw [if_neg (by simp only [Bool.and_eq_true, decide_eq_true_eq]; omega)]
    have hediv : Int.ediv ((m : Int) - 1) 12 = 0 := by
      apply Int.ediv_eq_zero_of_lt <;> omega
    have hemod : Int.emod ((m : Int) - 1) 12 = (m : Int) - 1 := by
      apply Int.emod_eq_of_lt <;> omega
    have hmn : ((m : Int) - 1).toNat = m - 1 := by omega
    have hmn1 : m - 1 + 1 = m := by omega
    have hutc : utcDays (y : Int) ((m : Int) - 1) (d : Int) =
        (rataDie y m d : Int) - (epochRD : Int) := by
      unfold utcDays
      simp only [hediv, hemod, Int.add_zero, Int.toNat_natCast, hmn, hmn1]
      unfold rataDie
      push_cast
      omega
    have hdm31 : daysInMonth y m ≤ 31 := by
      unfold daysInMonth monthLengths
      interval_cases m <;> cases hl : isLeap y <;> simp [hl]
    have hcivil := civilFromRD_rataDie y m d (by omega) hm1 hm2 hd1 hd2
    have hiso : toISODate ((rataDie y m d : Int) - (epochRD : Int)) = renderISO y m d := by
      unfold toISODate
      rw [show (rataDie y m d : Int) - ↑epochRD + ↑epochRD = (rataDie y m d : Int) by ring]
      simp only [Int.toNat_natCast, hcivil]
    unfold normalizeDateToISO
    rw [parse_render y m d h9999 (by omega) (by omega)]
    simp only [hmf, hutc, hiso]
  · intro s h1 h2
    unfold normalizeDateToISO
    rw [h1, h2]

set_option maxRecDepth 100000 in
/-- C5 witness: the identity branch at the concrete valid date
`"2024-05-20"` and the error branch at the (strict-shape-failing,
unparseable-by-oracle) input `"not a date"`. -/
theorem normalizeDateToISO_amended_witness :
    normalizeDateToISO (fun _ => none) "2024-05-20" = .ok "2024-05-20" ∧
    normalizeDateToISO (fun _ => none) "not a date" =
      .error ("Invalid date format: " ++ "not a date") :=
  ⟨(normalizeDateToISO_amended (fun _ => none)).1 2024 5 20 (by omega) (by omega)
      (by omega) (by omega) (by omega) (by decide),
    (normalizeDateToISO_amended (fun _ => none)).2 "not a date" (by decide) rfl⟩

/-! ## Claim C10 — out-of-range components roll over -/

set_option maxRecDepth 100000 in
/-- C10: out-of-range month or day components of a strict-shape input do
not raise: `"2024-02-30"` rolls over to `"2024-03-01"`, month 13 rolls
into the next year, month 00 rolls back into December of the previous
year; in general the strict branch never raises for any strict-shape
input. -/
theorem normalizeDateToISO_rollover :
    normalizeDateToISO (fun _ => none) "2024-02-30" = .ok "2024-03-01" ∧
    normalizeDateToISO (fun _ => none) "2024-13-01" = .ok "2025-01-01" ∧
    normalizeDateToISO (fun _ => none) "2024-00-15" = .ok "2023-12-15" ∧
    (∀ (p : String → Option Int) (s : String) (y m d : Nat),
      parseStrictDate s = some (y, m, d) → (normalizeDateToISO p s).isOk = true) := by
  refine ⟨by decide, by decide, by decide, ?_⟩
  intro p s y m d h
  unfold normalizeDateToISO
  rw [h]
  rfl

/-- C10 witness: the never-raises conjunct applied at the concrete
out-of-range input `"2024-02-30"`. -/
theorem normalizeDateToISO_rollover_witness :
    (normalizeDateToISO (fun _ => none) "2024-02-30").isOk = true :=
  normalizeDateToISO_rollover.2.2.2 (fun _ => none) "2024-02-30" 2024 2 30 (by decide)
